import Mathlib

/-!
Verification of the event-to-text renderer in `tools/postproc/bfbin2text.cpp`.

Strings are modelled as `List Char`, the C++ `unordered_set<string>` as a
`List (List Char)` queried only through membership, fatal `die` paths as
`Option.none`, and each callback as a function from the local state to the
new local state paired with the characters it writes to the output stream.
-/

namespace Bfbin2Text

/-- The set of characters accepted after a backslash by `expand_escapes`. -/
def escOk (c : Char) : Bool :=
  c = '\\' || c = '\'' || c = '"' || c = 't' || c = 'n' || c = 'r'

/-- The replacement character written for an accepted escape character. -/
def escChar (c : Char) : Char :=
  if c = 't' then '\t'
  else if c = 'n' then '\n'
  else if c = 'r' then '\r'
  else c

/-- The loop of `LocalState::expand_escapes`: the boolean argument is the
`escape_next` flag, `none` models the fatal `die` on an unrecognized escape
sequence.  When the input ends while `escape_next` is still set, the loop
simply finishes and the accumulated output is returned. -/
def expand_escapes_loop : Bool → List Char → Option (List Char)
  | false, [] => some []
  | true, [] => some []
  | true, c :: rest =>
      if escOk c then (expand_escapes_loop false rest).map (escChar c :: ·)
      else none
  | false, c :: rest =>
      if c = '\\' then expand_escapes_loop true rest
      else (expand_escapes_loop false rest).map (c :: ·)

/-- `LocalState::expand_escapes`: expand backslash escapes in a separator
string, dying (`none`) on an unrecognized escape sequence. -/
def expand_escapes (s : List Char) : Option (List Char) :=
  expand_escapes_loop false s

/-- The body of the `quote_for_csv` loop: every internal double quote is
doubled, all other characters are copied through. -/
def quote_body : List Char → List Char
  | [] => []
  | c :: rest => if c = '"' then '"' :: c :: quote_body rest else c :: quote_body rest

/-- `quote_for_csv`: wrap a string in double quotes, doubling internal double
quotes, with a leading `=` when the string starts with `-`. -/
def quote_for_csv (s : List Char) : List Char :=
  (if 0 < s.length ∧ s.head? = some '-' then ['='] else [])
  ++ '"' :: quote_body s ++ ['"']

/-- A typed data value delivered by the decoder. -/
inductive Value where
  | uint64 (v : Nat)
  | str (s : List Char)
  | boolv (v : Nat)
  deriving DecidableEq

/-- A structural event delivered by the decoder to the renderer. -/
inductive Event where
  | tableBegin (name : List Char)
  | rowBegin
  | colHeader (name : List Char)
  | dataValue (v : Value)
  | rowEnd
  deriving DecidableEq

/-- The renderer state fields of `LocalState` (file-name and stream fields
are omitted: output is modelled as the list of characters written). -/
structure LocalState where
  tablenum : Nat
  colsep : List Char
  colnum : Nat
  included_tables : List (List Char)
  excluded_tables : List (List Char)
  suppress_table : Bool
  only_names : Bool
  deriving DecidableEq

/-- The initial state built by the `LocalState` constructor after option
parsing: counters are zero, `suppress_table` is false. -/
def initState (colsep : List Char) (inc exc : List (List Char))
    (onlyNames : Bool) : LocalState :=
  { tablenum := 0, colsep := colsep, colnum := 0, included_tables := inc,
    excluded_tables := exc, suppress_table := false, only_names := onlyNames }

/-- The suppression test computed at the top of `begin_any_table`. -/
def shouldSuppress (inc exc : List (List Char)) (name : List Char) : Bool :=
  (0 < inc.length && !(inc.contains name)) || exc.contains name

/-- `begin_any_table`: recompute `suppress_table`; when the table is shown,
either emit only its quoted name (only-names mode, which also forces
suppression of the body) or emit a blank separator line when `tablenum > 0`,
increment `tablenum`, and emit the quoted name. -/
def begin_any_table (st : LocalState) (name : List Char) :
    LocalState × List Char :=
  if shouldSuppress st.included_tables st.excluded_tables name then
    ({ st with suppress_table := true }, [])
  else if st.only_names then
    ({ st with suppress_table := true }, quote_for_csv name ++ ['\n'])
  else
    ({ st with suppress_table := false, tablenum := st.tablenum + 1 },
      (if 0 < st.tablenum then ['\n'] else []) ++ quote_for_csv name ++ ['\n'])

/-- `begin_row` (registered for both `column_begin_cb` and `row_begin_cb`):
reset `colnum` unless the table is suppressed. -/
def begin_row (st : LocalState) : LocalState × List Char :=
  if st.suppress_table then (st, []) else ({ st with colnum := 0 }, [])

/-- `any_column_header`: emit the separator when `colnum > 0`, then the
quoted column name, then bump `colnum`; no-op when suppressed. -/
def any_column_header (st : LocalState) (name : List Char) :
    LocalState × List Char :=
  if st.suppress_table then (st, [])
  else ({ st with colnum := st.colnum + 1 },
    (if 0 < st.colnum then st.colsep else []) ++ quote_for_csv name)

/-- `end_row`: emit a newline unless the table is suppressed. -/
def end_row (st : LocalState) : LocalState × List Char :=
  if st.suppress_table then (st, []) else (st, ['\n'])

/-- `write_uint64_value`: separator when `colnum > 0`, then the decimal
rendering of the value, then bump `colnum`; no-op when suppressed. -/
def write_uint64_value (st : LocalState) (v : Nat) : LocalState × List Char :=
  if st.suppress_table then (st, [])
  else ({ st with colnum := st.colnum + 1 },
    (if 0 < st.colnum then st.colsep else []) ++ (Nat.repr v).data)

/-- `write_string_value`: separator when `colnum > 0`, then the quoted
string, then bump `colnum`; no-op when suppressed. -/
def write_string_value (st : LocalState) (s : List Char) :
    LocalState × List Char :=
  if st.suppress_table then (st, [])
  else ({ st with colnum := st.colnum + 1 },
    (if 0 < st.colnum then st.colsep else []) ++ quote_for_csv s)

/-- `write_bool_value`: separator when `colnum > 0`, then `FALSE` for the
byte 0 and `TRUE` for any other byte, then bump `colnum`; no-op when
suppressed. -/
def write_bool_value (st : LocalState) (v : Nat) : LocalState × List Char :=
  if st.suppress_table then (st, [])
  else ({ st with colnum := st.colnum + 1 },
    (if 0 < st.colnum then st.colsep else [])
      ++ (if v = 0 then "FALSE".data else "TRUE".data))

/-- Dispatch one decoder event to the callback registered for it in `main`. -/
def step (st : LocalState) : Event → LocalState × List Char
  | .tableBegin name => begin_any_table st name
  | .rowBegin => begin_row st
  | .colHeader name => any_column_header st name
  | .dataValue (.uint64 v) => write_uint64_value st v
  | .dataValue (.str s) => write_string_value st s
  | .dataValue (.boolv v) => write_bool_value st v
  | .rowEnd => end_row st

/-- Run the renderer over a whole event stream, concatenating the output. -/
def processEvents (st : LocalState) : List Event → LocalState × List Char
  | [] => (st, [])
  | e :: rest =>
      let p := step st e
      let q := processEvents p.1 rest
      (q.1, p.2 ++ q.2)

/-- The formatted text of one data value, as written by the three
`write_*_value` callbacks. -/
def formatValue : Value → List Char
  | .uint64 v => (Nat.repr v).data
  | .str s => quote_for_csv s
  | .boolv v => if v = 0 then "FALSE".data else "TRUE".data

/-- One table of the decoder stream: its declared name, its column-header
names, and its data rows. -/
structure Table where
  name : List Char
  headers : List (List Char)
  rows : List (List Value)
  deriving DecidableEq

/-- The events the decoder delivers for one data row. -/
def rowEvents (r : List Value) : List Event :=
  .rowBegin :: r.map .dataValue ++ [.rowEnd]

/-- The events the decoder delivers for one table: table begin, the header
row, then the data rows. -/
def tableEvents (t : Table) : List Event :=
  .tableBegin t.name ::
    ((.rowBegin :: t.headers.map .colHeader ++ [.rowEnd])
      ++ t.rows.flatMap rowEvents)

/-- The events the decoder delivers for a whole stream of tables. -/
def streamEvents (ts : List Table) : List Event :=
  ts.flatMap tableEvents

/-- Boolean test for characters other than the double quote. -/
def notQuote (c : Char) : Bool := c ≠ '"'

/-- A sample unsuppressed renderer state used to instantiate theorems. -/
def sampleState : LocalState := initState [','] [] [] false

/-- A sample renderer state whose current table is suppressed. -/
def suppState : LocalState := { sampleState with suppress_table := true }

lemma quote_body_count (s : List Char) :
    (quote_body s).count '"' = 2 * s.count '"' := by
  induction s with
  | nil => rfl
  | cons c rest ih =>
    by_cases h : c = '"'
    · subst h
      simp [quote_body, List.count_cons, ih]
      omega
    · simp [quote_body, h, List.count_cons, ih]

lemma quote_body_filter (s : List Char) :
    (quote_body s).filter notQuote = s.filter notQuote := by
  induction s with
  | nil => rfl
  | cons c rest ih =>
    by_cases h : c = '"'
    · subst h
      simp [quote_body, notQuote, List.filter_cons, ih]
    · simp [quote_body, h, notQuote, List.filter_cons, ih]

lemma head_minus_length_pos {s : List Char} (h : s.head? = some '-') :
    0 < s.length := by
  cases s <;> simp_all

/-- C3 counterexample: on the one-character string `-`, `quote_for_csv`
produces `="-"`, whose first character is `=`, not a double quote. -/
theorem quote_leading_minus_breaks_head :
    quote_for_csv ['-'] = ['=', '"', '-', '"'] ∧
    (quote_for_csv ['-']).head? ≠ some '"' := by
  decide

/-- C3 (amended): `quote_for_csv s` ends with a double quote, its first
character is `=` when `s` starts with `-` and a double quote otherwise, and
its double-quote count is `2 * count '"' s + 2`. -/
theorem quote_for_csv_shape_count (s : List Char) :
    (quote_for_csv s).head? = some (if s.head? = some '-' then '=' else '"') ∧
    (quote_for_csv s).getLast? = some '"' ∧
    (quote_for_csv s).count '"' = 2 * s.count '"' + 2 := by
  refine ⟨?_, ?_, ?_⟩
  · by_cases h : s.head? = some '-'
    · simp [quote_for_csv, h, head_minus_length_pos h]
    · have hc : ¬ (0 < s.length ∧ s.head? = some '-') := fun hx => h hx.2
      simp [quote_for_csv, hc, h]
  · have hshape : quote_for_csv s =
        ((if 0 < s.length ∧ s.head? = some '-' then ['='] else [])
          ++ '"' :: quote_body s) ++ ['"'] := by
      simp [quote_for_csv]
    rw [hshape, List.getLast?_concat]
  · by_cases hc : 0 < s.length ∧ s.head? = some '-'
    · simp [quote_for_csv, hc, List.count_cons, List.count_append,
        quote_body_count]
    · simp [quote_for_csv, hc, List.count_cons, List.count_append,
        quote_body_count]

/-- C4: the suppression test holds exactly when the include-set is non-empty
and misses the name, or the exclude-set contains the name; with both sets
empty nothing is suppressed. -/
theorem shouldSuppress_spec (inc exc : List (List Char)) (name : List Char) :
    (shouldSuppress inc exc name = true ↔
      ((inc ≠ [] ∧ name ∉ inc) ∨ name ∈ exc)) ∧
    shouldSuppress [] [] name = false := by
  constructor
  · simp [shouldSuppress, List.length_pos]
  · rfl

/-- C5: in an unsuppressed table, every data-value and column-header event
first emits the separator exactly when `colnum > 0`, then the value formatted
by its type, and increments `colnum` by one. -/
theorem value_emission_formats_and_counts (st : LocalState) (v : Value)
    (name : List Char) (h : st.suppress_table = false) :
    step st (.dataValue v) = ({ st with colnum := st.colnum + 1 },
      (if 0 < st.colnum then st.colsep else []) ++ formatValue v) ∧
    step st (.colHeader name) = ({ st with colnum := st.colnum + 1 },
      (if 0 < st.colnum then st.colsep else []) ++ quote_for_csv name) := by
  cases v <;>
    simp [step, write_uint64_value, write_string_value, write_bool_value,
      any_column_header, formatValue, h]

/-- C5 witness at a concrete state and concrete values. -/
theorem value_emission_formats_and_counts_witness :
    step sampleState (.dataValue (.uint64 5)) =
      ({ sampleState with colnum := sampleState.colnum + 1 },
        (if 0 < sampleState.colnum then sampleState.colsep else [])
          ++ formatValue (.uint64 5)) ∧
    step sampleState (.colHeader ['A']) =
      ({ sampleState with colnum := sampleState.colnum + 1 },
        (if 0 < sampleState.colnum then sampleState.colsep else [])
          ++ quote_for_csv ['A']) :=
  value_emission_formats_and_counts sampleState (.uint64 5) ['A'] rfl

/-- C6: when a string starts with `-`, its quotation starts with the two
characters `="`, and every character other than the double quotes is carried
over unchanged and in order. -/
theorem quote_leading_minus_guard (s : List Char) (h : s.head? = some '-') :
    (quote_for_csv s).take 2 = ['=', '"'] ∧
    (quote_for_csv s).filter notQuote = '=' :: s.filter notQuote := by
  have hl : 0 < s.length := head_minus_length_pos h
  constructor
  · simp [quote_for_csv, hl, h]
  · simp [quote_for_csv, hl, h, List.filter_cons, List.filter_append,
      notQuote, quote_body_filter]

/-- C6 witness on the concrete string `-x`. -/
theorem quote_leading_minus_guard_witness :
    (quote_for_csv ['-', 'x']).take 2 = ['=', '"'] ∧
    (quote_for_csv ['-', 'x']).filter notQuote
      = '=' :: (['-', 'x'].filter notQuote) :=
  quote_leading_minus_guard ['-', 'x'] rfl

/-- C7: a row-begin event in an unsuppressed table resets `colnum` to 0, so
the first value of the row is emitted with no preceding separator. -/
theorem begin_row_resets_column_index (st : LocalState) (v : Value)
    (h : st.suppress_table = false) :
    ((begin_row st).1).colnum = 0 ∧
    (step (begin_row st).1 (.dataValue v)).2 = formatValue v := by
  constructor
  · simp [begin_row, h]
  · cases v <;>
      simp [begin_row, h, step, write_uint64_value, write_string_value,
        write_bool_value, formatValue]

/-- C7 witness at a concrete state whose previous row had nonzero width. -/
theorem begin_row_resets_column_index_witness :
    ((begin_row { sampleState with colnum := 7 }).1).colnum = 0 ∧
    (step (begin_row { sampleState with colnum := 7 }).1
        (.dataValue (.str ['x']))).2 = formatValue (.str ['x']) :=
  begin_row_resets_column_index { sampleState with colnum := 7 }
    (.str ['x']) rfl

/-- C9: a bool data value renders as `TRUE` for every nonzero byte and as
`FALSE` exactly for the byte 0. -/
theorem bool_nonzero_renders_true (st : LocalState) (v : Nat)
    (h : st.suppress_table = false) (hv : v < 256) :
    (v ≠ 0 → (write_bool_value st v).2
        = (if 0 < st.colnum then st.colsep else []) ++ "TRUE".data) ∧
    ((write_bool_value st v).2
        = (if 0 < st.colnum then st.colsep else []) ++ "FALSE".data ↔
      v = 0) := by
  constructor
  · intro hv0
    simp [write_bool_value, h, hv0]
  · constructor
    · intro he
      by_contra hv0
      simp [write_bool_value, h, hv0] at he
    · intro hv0
      simp [write_bool_value, h, hv0]

/-- C9 witness at the byte 2 (nonzero but not 1). -/
theorem bool_nonzero_renders_true_witness :
    (2 ≠ 0 → (write_bool_value sampleState 2).2
        = (if 0 < sampleState.colnum then sampleState.colsep else [])
          ++ "TRUE".data) ∧
    ((write_bool_value sampleState 2).2
        = (if 0 < sampleState.colnum then sampleState.colsep else [])
          ++ "FALSE".data ↔ (2 : Nat) = 0) :=
  bool_nonzero_renders_true sampleState 2 rfl (by decide)

/-- C10: while the current table is suppressed, the row, header, value and
row-end handlers write nothing and leave the whole state unchanged. -/
theorem suppressed_handlers_are_no_ops (st : LocalState) (name s : List Char)
    (v b : Nat) (h : st.suppress_table = true) :
    begin_row st = (st, []) ∧ any_column_header st name = (st, []) ∧
    write_uint64_value st v = (st, []) ∧ write_string_value st s = (st, []) ∧
    write_bool_value st b = (st, []) ∧ end_row st = (st, []) := by
  simp [begin_row, any_column_header, write_uint64_value, write_string_value,
    write_bool_value, end_row, h]

/-- The spec-side well-formedness condition of the claim on escape
expansion: every backslash in the string is immediately followed by one of
the accepted escape characters. -/
def goodFollower : List Char → Bool
  | [] => true
  | c :: rest =>
    if c = '\\' then
      match rest with
      | [] => false
      | d :: _ => escOk d && goodFollower rest
    else goodFollower rest

/-- The spec-side greedy left-to-right replacement: each two-character
escape is replaced by its single corresponding character, all other
characters are copied unchanged. -/
def replace_escapes : List Char → List Char
  | [] => []
  | c :: rest =>
    if c = '\\' then
      match rest with
      | [] => []
      | d :: rest2 => escChar d :: replace_escapes rest2
    else c :: replace_escapes rest

lemma goodFollower_bs_nil : goodFollower ['\\'] = false := by
  simp [goodFollower]

lemma goodFollower_bs_cons (d : Char) (r : List Char) :
    goodFollower ('\\' :: d :: r) = (escOk d && goodFollower (d :: r)) := by
  simp [goodFollower]

lemma goodFollower_cons {c : Char} (hc : c ≠ '\\') (rest : List Char) :
    goodFollower (c :: rest) = goodFollower rest := by
  simp [goodFollower, hc]

lemma replace_escapes_bs_cons (d : Char) (r : List Char) :
    replace_escapes ('\\' :: d :: r) = escChar d :: replace_escapes r := by
  simp [replace_escapes]

lemma replace_escapes_cons {c : Char} (hc : c ≠ '\\') (r : List Char) :
    replace_escapes (c :: r) = c :: replace_escapes r := by
  rw [replace_escapes.eq_def]
  simp [hc]

lemma loop_false_bs (r : List Char) :
    expand_escapes_loop false ('\\' :: r) = expand_escapes_loop true r := by
  simp [expand_escapes_loop]

lemma loop_false_cons {c : Char} (hc : c ≠ '\\') (r : List Char) :
    expand_escapes_loop false (c :: r)
      = (expand_escapes_loop false r).map (c :: ·) := by
  simp [expand_escapes_loop, hc]

lemma loop_true_ok {c : Char} (hc : escOk c = true) (r : List Char) :
    expand_escapes_loop true (c :: r)
      = (expand_escapes_loop false r).map (escChar c :: ·) := by
  simp [expand_escapes_loop, hc]

lemma loop_true_bad {c : Char} (hc : escOk c = false) (r : List Char) :
    expand_escapes_loop true (c :: r) = none := by
  simp [expand_escapes_loop, hc]

lemma goodFollower_tail {c : Char} {rest : List Char}
    (h : goodFollower (c :: rest) = true) : goodFollower rest = true := by
  by_cases hc : c = '\\'
  · subst hc
    cases rest with
    | nil => rw [goodFollower_bs_nil] at h; exact absurd h (by simp)
    | cons d r =>
      rw [goodFollower_bs_cons, Bool.and_eq_true] at h
      exact h.2
  · rwa [goodFollower_cons hc] at h

lemma expand_good (n : Nat) : ∀ s : List Char, s.length ≤ n →
    goodFollower s = true →
    expand_escapes_loop false s = some (replace_escapes s) := by
  induction n with
  | zero =>
    intro s hl _
    rw [List.length_eq_zero.mp (Nat.le_zero.mp hl)]
    rfl
  | succ n ih =>
    intro s hl hg
    cases s with
    | nil => rfl
    | cons c rest =>
      by_cases hc : c = '\\'
      · subst hc
        cases rest with
        | nil => rw [goodFollower_bs_nil] at hg; exact absurd hg (by simp)
        | cons d rest2 =>
          rw [goodFollower_bs_cons, Bool.and_eq_true] at hg
          obtain ⟨hd, hg2⟩ := hg
          have hg3 : goodFollower rest2 = true := goodFollower_tail hg2
          have hrec := ih rest2 (by simp at hl; omega) hg3
          rw [loop_false_bs, loop_true_ok hd, hrec,
            replace_escapes_bs_cons]
          rfl
      · have hg2 : goodFollower rest = true := by
          rwa [goodFollower_cons hc] at hg
        have hrec := ih rest (by simp at hl; omega) hg2
        rw [loop_false_cons hc, hrec, replace_escapes_cons hc]
        rfl

lemma expand_none (n : Nat) : ∀ s : List Char, s.length ≤ n →
    expand_escapes_loop false s = none →
    ∃ l c r, s = l ++ '\\' :: c :: r ∧ escOk c = false := by
  induction n with
  | zero =>
    intro s hl h
    rw [List.length_eq_zero.mp (Nat.le_zero.mp hl)] at h
    simp [expand_escapes_loop] at h
  | succ n ih =>
    intro s hl h
    cases s with
    | nil => simp [expand_escapes_loop] at h
    | cons c rest =>
      by_cases hc : c = '\\'
      · subst hc
        rw [loop_false_bs] at h
        cases rest with
        | nil => simp [expand_escapes_loop] at h
        | cons d r2 =>
          by_cases hd : escOk d = true
          · rw [loop_true_ok hd] at h
            have h2 : expand_escapes_loop false r2 = none := by
              simpa using h
            obtain ⟨l, e, r, heq, he⟩ := ih r2 (by simp at hl; omega) h2
            exact ⟨'\\' :: d :: l, e, r, by simp [heq], he⟩
          · exact ⟨[], d, r2, rfl, by simpa using hd⟩
      · rw [loop_false_cons hc] at h
        have h2 : expand_escapes_loop false rest = none := by
          simpa using h
        obtain ⟨l, e, r, heq, he⟩ := ih rest (by simp at hl; omega) h2
        exact ⟨c :: l, e, r, by simp [heq], he⟩

/-- C1 counterexample: the separator string `a\` ends in a lone backslash,
yet `expand_escapes` succeeds (returning `a`) instead of dying with the
invalid-escape-sequence error. -/
theorem trailing_backslash_not_rejected :
    expand_escapes ['a', '\\'] = some ['a'] ∧
    expand_escapes ['a', '\\'] ≠ none := by
  decide

/-- C1 (amended): on a separator string made of backslash-free text followed
by one trailing lone backslash, the escape expander does not reject the
input: it returns the text with the trailing backslash silently dropped. -/
theorem trailing_backslash_dropped (s : List Char) (h : '\\' ∉ s) :
    expand_escapes (s ++ ['\\']) = some s := by
  unfold expand_escapes
  induction s with
  | nil => rfl
  | cons c rest ih =>
    have hc : c ≠ '\\' := fun he => h (he ▸ List.mem_cons_self c rest)
    have h2 : '\\' ∉ rest := fun hm => h (List.mem_cons_of_mem c hm)
    simp [expand_escapes_loop, hc, ih h2]

/-- C1 amended-claim witness on the concrete separator `ab\`. -/
theorem trailing_backslash_dropped_witness :
    expand_escapes (['a', 'b'] ++ ['\\']) = some ['a', 'b'] :=
  trailing_backslash_dropped ['a', 'b'] (by decide)

/-- C8 counterexample: in `\\q` the character `q` follows a backslash and is
not an accepted escape character, yet `expand_escapes` succeeds (the second
backslash is the payload of the first escape), returning `\q`. -/
theorem escaped_backslash_masks_bad_escape :
    expand_escapes ['\\', '\\', 'q'] = some ['\\', 'q'] ∧
    ['\\', '\\', 'q'] = ['\\'] ++ '\\' :: 'q' :: [] ∧
    escOk 'q' = false := by
  decide

/-- C8 (amended): when every backslash is followed by an accepted escape
character the expander succeeds with the greedy left-to-right replacement;
and whenever it dies with the invalid-escape-sequence error, some backslash
in the input is followed by a non-accepted character (the converse fails for
backslashes that are themselves escape payloads). -/
theorem expand_escapes_correct (s : List Char) :
    (goodFollower s = true →
      expand_escapes s = some (replace_escapes s)) ∧
    (expand_escapes s = none →
      ∃ l c r, s = l ++ '\\' :: c :: r ∧ escOk c = false) :=
  ⟨fun h => expand_good s.length s le_rfl h,
    fun h => expand_none s.length s le_rfl h⟩

/-- C8 witness: the concrete expansion of `a\tb` into `a<TAB>b`. -/
theorem expand_escapes_correct_witness :
    expand_escapes ['a', '\\', 't', 'b'] = some ['a', '\t', 'b'] := by
  have h := (expand_escapes_correct ['a', '\\', 't', 'b']).1 (by decide)
  have he : replace_escapes ['a', '\\', 't', 'b'] = ['a', '\t', 'b'] := by
    decide
  rw [he] at h
  exact h

/-- C10 witness at a concrete suppressed state. -/
theorem suppressed_handlers_are_no_ops_witness :
    begin_row suppState = (suppState, []) ∧
    any_column_header suppState ['A'] = (suppState, []) ∧
    write_uint64_value suppState 5 = (suppState, []) ∧
    write_string_value suppState ['x'] = (suppState, []) ∧
    write_bool_value suppState 1 = (suppState, []) ∧
    end_row suppState = (suppState, []) :=
  suppressed_handlers_are_no_ops suppState ['A'] ['x'] 5 1 rfl

lemma processEvents_append (st : LocalState) (l1 l2 : List Event) :
    processEvents st (l1 ++ l2)
      = ((processEvents (processEvents st l1).1 l2).1,
        (processEvents st l1).2
          ++ (processEvents (processEvents st l1).1 l2).2) := by
  induction l1 generalizing st with
  | nil => simp [processEvents]
  | cons e rest ih => simp [processEvents, ih]

lemma step_suppressed (st : LocalState) (e : Event)
    (h : st.suppress_table = true) (hne : ∀ n, e ≠ .tableBegin n) :
    step st e = (st, []) := by
  cases e with
  | tableBegin n => exact absurd rfl (hne n)
  | rowBegin => simp [step, begin_row, h]
  | colHeader n => simp [step, any_column_header, h]
  | dataValue v =>
    cases v <;>
      simp [step, write_uint64_value, write_string_value, write_bool_value, h]
  | rowEnd => simp [step, end_row, h]

lemma processEvents_suppressed (evs : List Event) : ∀ st : LocalState,
    st.suppress_table = true → (∀ e ∈ evs, ∀ n, e ≠ .tableBegin n) →
    processEvents st evs = (st, []) := by
  induction evs with
  | nil => intro st _ _; rfl
  | cons e rest ih =>
    intro st h hne
    have hs : step st e = (st, []) :=
      step_suppressed st e h (hne e (List.mem_cons_self e rest))
    simp [processEvents, hs, ih st h fun x hx => hne x (List.mem_cons_of_mem e hx)]

lemma table_body_no_tableBegin (t : Table) :
    ∀ e ∈ (Event.rowBegin :: t.headers.map .colHeader ++ [.rowEnd])
        ++ t.rows.flatMap rowEvents, ∀ n, e ≠ .tableBegin n := by
  intro e he n
  rcases List.mem_append.1 he with h1 | h2
  · rcases List.mem_cons.1 h1 with h | h
    · simp [h]
    · rcases List.mem_append.1 h with h | h
      · obtain ⟨a, _, ha⟩ := List.mem_map.1 h
        simp [← ha]
      · simp [List.mem_singleton.1 h]
  · obtain ⟨r, _, hr⟩ := List.mem_flatMap.1 h2
    rcases List.mem_cons.1 hr with h | h
    · simp [h]
    · rcases List.mem_append.1 h with h | h
      · obtain ⟨a, _, ha⟩ := List.mem_map.1 h
        simp [← ha]
      · simp [List.mem_singleton.1 h]

lemma begin_any_table_only_names (st : LocalState) (name : List Char)
    (h : st.only_names = true) :
    begin_any_table st name = ({ st with suppress_table := true },
      if shouldSuppress st.included_tables st.excluded_tables name then []
      else quote_for_csv name ++ ['\n']) := by
  by_cases hs : shouldSuppress st.included_tables st.excluded_tables name
  · simp [begin_any_table, hs]
  · simp [begin_any_table, hs, h]

lemma processEvents_cons (st : LocalState) (e : Event) (evs : List Event) :
    processEvents st (e :: evs)
      = ((processEvents (step st e).1 evs).1,
        (step st e).2 ++ (processEvents (step st e).1 evs).2) := rfl

lemma processEvents_table_only_names (st : LocalState) (t : Table)
    (h : st.only_names = true) :
    processEvents st (tableEvents t) = ({ st with suppress_table := true },
      if shouldSuppress st.included_tables st.excluded_tables t.name then []
      else quote_for_csv t.name ++ ['\n']) := by
  have hstep := begin_any_table_only_names st t.name h
  have hbody := processEvents_suppressed
    ((Event.rowBegin :: t.headers.map .colHeader ++ [.rowEnd])
      ++ t.rows.flatMap rowEvents)
    { st with suppress_table := true } rfl (table_body_no_tableBegin t)
  rw [tableEvents, processEvents_cons]
  simp only [step, hstep, hbody]
  simp

lemma only_names_stream (ts : List Table) : ∀ st : LocalState,
    st.only_names = true →
    (processEvents st (streamEvents ts)).2
      = (ts.filter (fun t =>
          !shouldSuppress st.included_tables st.excluded_tables t.name)).flatMap
        (fun t => quote_for_csv t.name ++ ['\n']) := by
  induction ts with
  | nil => intro st _; rfl
  | cons t ts ih =>
    intro st h
    have hsplit : streamEvents (t :: ts) = tableEvents t ++ streamEvents ts := by
      simp [streamEvents]
    rw [hsplit, processEvents_append, processEvents_table_only_names st t h]
    have hih := ih { st with suppress_table := true } h
    by_cases hs : shouldSuppress st.included_tables st.excluded_tables t.name
    · simpa [hs, List.filter_cons] using hih
    · simpa [hs, List.filter_cons] using hih

/-- C2 counterexample: in only-names mode, two unfiltered tables render as
two adjacent quoted-name lines with no blank line between them, not as
name lines separated by a blank line. -/
theorem only_names_no_blank_line :
    (processEvents (initState [','] [] [] true)
        (streamEvents [⟨['T', '1'], [], []⟩, ⟨['T', '2'], [], []⟩])).2
      = "\"T1\"\n\"T2\"\n".data ∧
    "\"T1\"\n\"T2\"\n".data ≠ "\"T1\"\n\n\"T2\"\n".data := by
  decide

/-- C2 (amended): with only-names mode configured, the rendered output of
any event stream is exactly the concatenation of the quoted table-name
lines of the non-suppressed tables, one per line with no blank lines
between them and with no header rows and no data rows. -/
theorem only_names_output (colsep : List Char) (inc exc : List (List Char))
    (ts : List Table) :
    (processEvents (initState colsep inc exc true) (streamEvents ts)).2
      = (ts.filter (fun t => !shouldSuppress inc exc t.name)).flatMap
        (fun t => quote_for_csv t.name ++ ['\n']) :=
  only_names_stream ts (initState colsep inc exc true) rfl

end Bfbin2Text
